import Mathlib

/-!
A verification development for the treaform tool: a shallow embedding of its
module-tree construction and rendering logic (`src/main.rs`), with theorems
checking the design document's claims against the embedded code.

Modelling conventions:
* Operating-system strings (path components returned by the filesystem) are
  either valid UTF-8 text, carrying the text, or opaque invalid byte data;
  `OsStr.to_str` mirrors `OsStr::to_str`, failing on invalid data.
* A filesystem path is its list of components.  `PathBuf::push` of a declared
  source string appends the string's `/`-separated components (the
  replacement behaviour of `push` on absolute paths is not modelled; no claim
  exercises it), and re-collecting a path from its own components, as the
  renderer does, is the identity here.
* The ambient filesystem is a parameter `FS`: `FS.canonicalize` models
  `std::fs::canonicalize`, returning `none` on failure (the program discards
  the `io::Error` value, so it is not modelled).
* A Rust panic (`.expect`) during tree construction is modelled by the
  builder returning `none`.
* `std::collections::HashMap` has no specified iteration order.  A decoded
  map is represented by a canonical association list with pairwise-distinct
  keys (first-insertion key order, last inserted value); statements that
  depend on iteration order quantify over permutations of that list, since
  any permutation is a possible `HashMap` iteration order.
* `fmt::Error` carries no data, so a formatting step returns the text it has
  written so far together with a success flag.
* JSON numbers are modelled as integers; the schema only ever reads a
  `usize`, and no claim involves fractional numbers.
-/

set_option maxHeartbeats 1000000

namespace Treaform

/-- An operating-system string: either valid UTF-8 text or invalid bytes. -/
inductive OsStr where
  | valid : String → OsStr
  | invalid : List Nat → OsStr
deriving DecidableEq

/-- `OsStr::to_str`: the text, when the data is valid UTF-8. -/
def OsStr.to_str : OsStr → Option String
  | .valid s => some s
  | .invalid _ => none

/-- A filesystem path, as its list of components. -/
abbrev Path := List OsStr

/-- `Path::to_str`: the whole path is displayable iff every component is. -/
def Path.to_str (p : Path) : Option String :=
  (p.mapM OsStr.to_str).map (String.intercalate "/")

/-- `PathBuf::push` of a declared source string: append its `/`-separated
components. -/
def pushStr (p : Path) (s : String) : Path :=
  p ++ (s.splitOn "/").map OsStr.valid

/-- The ambient filesystem, as the behaviour of `Path::canonicalize`. -/
structure FS where
  canonicalize : Path → Option Path

mutual
/-- `struct Module<'a> { module_calls: Option<HashMap<&'a str, ModuleCall<'a>>> }`.
The list is the map in its iteration order (see the header note on
`HashMap`). -/
inductive Module where
  | mk : Option (List (String × ModuleCall)) → Module

/-- `struct ModuleCall<'a> { module, source, count_expression, for_each_expression }`,
with `CountExpression` and `ForEachExpression` inlined to their
`constant_value` payloads (a `usize`, and the keys of a
`HashMap<&'a str, IgnoredAny>`). -/
inductive ModuleCall where
  | mk : Module → String → Option Nat → Option (List String) → ModuleCall
end

def Module.module_calls : Module → Option (List (String × ModuleCall))
  | .mk c => c

def ModuleCall.module : ModuleCall → Module
  | .mk m _ _ _ => m

def ModuleCall.source : ModuleCall → String
  | .mk _ s _ _ => s

def ModuleCall.count_expression : ModuleCall → Option Nat
  | .mk _ _ c _ => c

def ModuleCall.for_each_expression : ModuleCall → Option (List String)
  | .mk _ _ _ f => f

/-- `struct TreeNode<'a>` from the source. -/
structure TreeNode where
  name : String
  count : Option Nat
  for_each : Option (List String)
  source : Path
deriving DecidableEq

/-- `termtree::Tree<T>`: a root value and its ordered child trees. -/
inductive Tree (α : Type) where
  | node : α → List (Tree α) → Tree α

/-- The value at the root of a tree. -/
def Tree.rootVal {α : Type} : Tree α → α
  | .node v _ => v

/-- The name rendered at the root of a `TreeNode` tree. -/
def treeName (t : Tree TreeNode) : String :=
  (Tree.rootVal t).name

mutual
/-- `Module::into_trees`: one tree per module call, in map iteration order.
`canonicalize().expect("terraform provided incorrect path")` panics on
failure, modelled by returning `none`.  The `source.strip_prefix(base)`
result is bound to `_` and discarded by the source, so it has no observable
effect and is not modelled beyond this note. -/
def Module.into_trees (fs : FS) (base parent : Path) :
    Module → Option (List (Tree TreeNode))
  | .mk none => some []
  | .mk (some calls) => intoTreesList fs base parent calls

/-- The body of the `map` closure in `Module::into_trees`, iterated over the
call map's entries (the enclosing iterator is fully consumed by
`with_leaves`). -/
def intoTreesList (fs : FS) (base parent : Path) :
    List (String × ModuleCall) → Option (List (Tree TreeNode))
  | [] => some []
  | (name, .mk m src cnt fe) :: rest =>
    match fs.canonicalize (pushStr parent src) with
    | none => none
    | some source =>
      match Module.into_trees fs base (pushStr parent src) m with
      | none => none
      | some children =>
        match intoTreesList fs base parent rest with
        | none => none
        | some ts => some (Tree.node ⟨name, cnt, fe, source⟩ children :: ts)
end

/-- The key loop in `Display for TreeNode`: each key, with a space after
every key except the last. -/
def writeKeys : List String → String
  | [] => ""
  | [k] => k
  | k :: rest => k ++ " " ++ writeKeys rest

/-- The suffix written when `count` is present. -/
def countSuffix : Option Nat → String
  | none => ""
  | some i => "[" ++ toString i ++ "]"

/-- The brace-delimited suffix written when `for_each` is present. -/
def forEachSuffix : Option (List String) → String
  | none => ""
  | some keys => "\x7b" ++ writeKeys keys ++ "\x7d"

/-- `impl fmt::Display for TreeNode`, as the text written plus a success
flag.  The source first re-collects `self.source` from its components (the
identity here) and canonicalizes it again; on failure nothing has been
written.  The name, then the `count` suffix, then the `for_each` suffix are
written by two independent `if let`s; the final write converts the
canonical path with `to_str` before writing the parenthesized part, so a
conversion failure leaves the line without the path part. -/
def TreeNode.fmt (fs : FS) (n : TreeNode) : String × Bool :=
  match fs.canonicalize n.source with
  | none => ("", false)
  | some path =>
    let out := n.name ++ countSuffix n.count ++ forEachSuffix n.for_each
    match Path.to_str path with
    | none => (out, false)
    | some s => (out ++ " (" ++ s ++ ")", true)

mutual
/-- `Display for termtree::Tree`, specialised to `TreeNode`: the root line,
then the children with branch glyphs, depth first.  On a node failure the
text already produced is returned unchanged together with a failure flag,
and nothing further is rendered. -/
def printTree (fs : FS) : Tree TreeNode → String × Bool
  | .node v children =>
    match TreeNode.fmt fs v with
    | (line, false) => (line, false)
    | (line, true) =>
      match printChildren fs "" children with
      | (rest, ok) => (line ++ "\n" ++ rest, ok)

/-- Rendering of a child list under an accumulated glyph column. -/
def printChildren (fs : FS) (pre : String) :
    List (Tree TreeNode) → String × Bool
  | [] => ("", true)
  | [Tree.node v children] =>
    match TreeNode.fmt fs v with
    | (line, false) => (pre ++ "└── " ++ line, false)
    | (line, true) =>
      match printChildren fs (pre ++ "    ") children with
      | (sub, ok) => (pre ++ "└── " ++ line ++ "\n" ++ sub, ok)
  | Tree.node v children :: rest =>
    match TreeNode.fmt fs v with
    | (line, false) => (pre ++ "├── " ++ line, false)
    | (line, true) =>
      match printChildren fs (pre ++ "│   ") children with
      | (sub, false) => (pre ++ "├── " ++ line ++ "\n" ++ sub, false)
      | (sub, true) =>
        match printChildren fs pre rest with
        | (tail, ok) => (pre ++ "├── " ++ line ++ "\n" ++ sub ++ tail, ok)
end

/-- The tree-construction fragment of `main`: join the current directory and
the `--path` argument, require — but discard the result of — its
canonicalization, build the synthetic root node, and attach the root
module's trees beneath it. -/
def mkRootTree (fs : FS) (cwd argPath : Path) (root_module : Module) :
    Option (Tree TreeNode) :=
  let terraform_dir := cwd ++ argPath
  match fs.canonicalize terraform_dir with
  | none => none
  | some _ =>
    match Module.into_trees fs terraform_dir terraform_dir root_module with
    | none => none
    | some ts => some (Tree.node ⟨"*", none, none, terraform_dir⟩ ts)

/-- JSON values, with objects as field lists in document order (duplicate
keys possible) and numbers restricted to integers (the schema only reads a
`usize`). -/
inductive Json where
  | null : Json
  | bool : Bool → Json
  | num : Int → Json
  | str : String → Json
  | arr : List Json → Json
  | obj : List (String × Json) → Json

/-- The deserialization failures distinguished by this development
(`serde_json` errors are surfaced verbatim and never inspected, so only
their existence matters). -/
inductive SchemaError where
  | missingField : String → SchemaError
  | duplicateField : String → SchemaError
  | typeMismatch : SchemaError

/-- `HashMap::insert` on the canonical association list: replace the value
in place when the key is present, otherwise append the binding. -/
def assocInsert {α : Type} (k : String) (v : α) :
    List (String × α) → List (String × α)
  | [] => [(k, v)]
  | (k2, v2) :: rest =>
    if k2 = k then (k, v) :: rest else (k2, v2) :: assocInsert k v rest

/-- The effect of `assocInsert` on the key list. -/
def keysInsert (k : String) (ks : List String) : List String :=
  if k ∈ ks then ks else ks ++ [k]

/-- The distinct keys of a JSON object, in first-occurrence order (the
canonical representative of the decoded `HashMap`'s key set). -/
def objKeys (fields : List (String × Json)) : List String :=
  fields.foldl (fun ks kv => keysInsert kv.1 ks) []

/-- `usize` from JSON: a non-negative integer. -/
def decodeUsize : Json → Except SchemaError Nat
  | .num n => if n < 0 then .error .typeMismatch else .ok n.toNat
  | _ => .error .typeMismatch

/-- One visited field of a `CountExpression` map (unknown keys ignored,
duplicate known keys rejected, as the derived `Deserialize` does). -/
def stepCountField (slot : Option Nat) (k : String) (v : Json) :
    Except SchemaError (Option Nat) :=
  if k = "constant_value" then
    match slot with
    | some _ => .error (.duplicateField "constant_value")
    | none =>
      match decodeUsize v with
      | .error e => .error e
      | .ok n => .ok (some n)
  else .ok slot

/-- The field loop of the derived `Deserialize` for `CountExpression`. -/
def visitCountFields (slot : Option Nat) :
    List (String × Json) → Except SchemaError (Option Nat)
  | [] => .ok slot
  | (k, v) :: rest =>
    match stepCountField slot k v with
    | .error e => .error e
    | .ok slot2 => visitCountFields slot2 rest

/-- `struct CountExpression { constant_value: usize }` from JSON. -/
def decodeCountExpression : Json → Except SchemaError Nat
  | .obj fields =>
    (match visitCountFields none fields with
     | .error e => .error e
     | .ok none => .error (.missingField "constant_value")
     | .ok (some n) => .ok n)
  | _ => .error .typeMismatch

/-- `HashMap<&str, IgnoredAny>` from JSON: the values are ignored, only the
key set is kept. -/
def decodeKeySet : Json → Except SchemaError (List String)
  | .obj fields => .ok (objKeys fields)
  | _ => .error .typeMismatch

/-- One visited field of a `ForEachExpression` map. -/
def stepForEachField (slot : Option (List String)) (k : String) (v : Json) :
    Except SchemaError (Option (List String)) :=
  if k = "constant_value" then
    match slot with
    | some _ => .error (.duplicateField "constant_value")
    | none =>
      match decodeKeySet v with
      | .error e => .error e
      | .ok ks => .ok (some ks)
  else .ok slot

/-- The field loop of the derived `Deserialize` for `ForEachExpression`. -/
def visitForEachFields (slot : Option (List String)) :
    List (String × Json) → Except SchemaError (Option (List String))
  | [] => .ok slot
  | (k, v) :: rest =>
    match stepForEachField slot k v with
    | .error e => .error e
    | .ok slot2 => visitForEachFields slot2 rest

/-- `struct ForEachExpression { constant_value: HashMap<&str, IgnoredAny> }`
from JSON. -/
def decodeForEachExpression : Json → Except SchemaError (List String)
  | .obj fields =>
    (match visitForEachFields none fields with
     | .error e => .error e
     | .ok none => .error (.missingField "constant_value")
     | .ok (some ks) => .ok ks)
  | _ => .error .typeMismatch

/-- `Option<CountExpression>` from JSON: `null` is `None`. -/
def decodeOptCount : Json → Except SchemaError (Option Nat)
  | .null => .ok none
  | j =>
    match decodeCountExpression j with
    | .error e => .error e
    | .ok n => .ok (some n)

/-- `Option<ForEachExpression>` from JSON: `null` is `None`. -/
def decodeOptForEach : Json → Except SchemaError (Option (List String))
  | .null => .ok none
  | j =>
    match decodeForEachExpression j with
    | .error e => .error e
    | .ok ks => .ok (some ks)

/-- The partially-filled fields of a `ModuleCall` during its map visit.  An
outer `none` means the field has not been seen yet. -/
structure CallSlots where
  module : Option Module
  source : Option String
  count_expression : Option (Option Nat)
  for_each_expression : Option (Option (List String))

/-- Store a decoded `module` field value: duplicate fields are rejected,
decode errors propagate. -/
def applyCallModule : CallSlots → Except SchemaError Module →
    Except SchemaError CallSlots
  | ⟨some _, _, _, _⟩, _ => .error (.duplicateField "module")
  | ⟨none, _, _, _⟩, .error e => .error e
  | ⟨none, ss, sc, sf⟩, .ok m => .ok ⟨some m, ss, sc, sf⟩

/-- Store a `source` field value (`&str`: a JSON string is required). -/
def applyCallSource : CallSlots → Json → Except SchemaError CallSlots
  | ⟨_, some _, _, _⟩, _ => .error (.duplicateField "source")
  | ⟨sm, none, sc, sf⟩, .str s => .ok ⟨sm, some s, sc, sf⟩
  | ⟨_, none, _, _⟩, _ => .error .typeMismatch

/-- Store a decoded `count_expression` field value. -/
def applyCallCount : CallSlots → Except SchemaError (Option Nat) →
    Except SchemaError CallSlots
  | ⟨_, _, some _, _⟩, _ => .error (.duplicateField "count_expression")
  | ⟨_, _, none, _⟩, .error e => .error e
  | ⟨sm, ss, none, sf⟩, .ok c => .ok ⟨sm, ss, some c, sf⟩

/-- Store a decoded `for_each_expression` field value. -/
def applyCallForEach : CallSlots → Except SchemaError (Option (List String)) →
    Except SchemaError CallSlots
  | ⟨_, _, _, some _⟩, _ => .error (.duplicateField "for_each_expression")
  | ⟨_, _, _, none⟩, .error e => .error e
  | ⟨sm, ss, sc, none⟩, .ok fe => .ok ⟨sm, ss, sc, some fe⟩

/-- Store a decoded `module_calls` field value of a `Module` map. -/
def applyModuleCalls :
    Option (Option (List (String × ModuleCall))) →
    Except SchemaError (Option (List (String × ModuleCall))) →
    Except SchemaError (Option (Option (List (String × ModuleCall))))
  | some _, _ => .error (.duplicateField "module_calls")
  | none, .error e => .error e
  | none, .ok c => .ok (some c)

mutual
/-- Derived `Deserialize` for `Module` (map form): unknown keys ignored,
`module_calls` optional (absent or `null` gives `None`). -/
def decodeModule : Json → Except SchemaError Module
  | .obj fields =>
    (match visitModuleFields none fields with
     | .error e => .error e
     | .ok slot => .ok (Module.mk slot.join))
  | _ => .error .typeMismatch
termination_by j => sizeOf j

/-- `Option<HashMap<&str, ModuleCall>>` from JSON: `null` is `None`, a map
is decoded, anything else is a type mismatch. -/
def decodeOptCallMap : Json →
    Except SchemaError (Option (List (String × ModuleCall)))
  | .null => .ok none
  | .obj entries => Except.map some (decodeCalls [] entries)
  | _ => .error .typeMismatch
termination_by j => sizeOf j

/-- One visited field of a `Module` map. -/
def stepModuleField (slot : Option (Option (List (String × ModuleCall))))
    (k : String) (v : Json) :
    Except SchemaError (Option (Option (List (String × ModuleCall)))) :=
  if k = "module_calls" then applyModuleCalls slot (decodeOptCallMap v)
  else .ok slot
termination_by sizeOf v + 1

/-- The field loop of the derived `Deserialize` for `Module`. -/
def visitModuleFields (slot : Option (Option (List (String × ModuleCall)))) :
    List (String × Json) → Except SchemaError (Option (Option (List (String × ModuleCall))))
  | [] => .ok slot
  | (k, v) :: rest =>
    match stepModuleField slot k v with
    | .error e => .error e
    | .ok slot2 => visitModuleFields slot2 rest
termination_by l => sizeOf l

/-- Derived `Deserialize` for `HashMap<&str, ModuleCall>`: decode each entry
value in document order and insert it (a later duplicate key replaces the
stored value, as `HashMap::insert` does). -/
def decodeCalls (acc : List (String × ModuleCall)) :
    List (String × Json) → Except SchemaError (List (String × ModuleCall))
  | [] => .ok acc
  | (k, v) :: rest =>
    match decodeModuleCall v with
    | .error e => .error e
    | .ok call => decodeCalls (assocInsert k call acc) rest
termination_by l => sizeOf l

/-- Derived `Deserialize` for `ModuleCall` (map form): `module` and `source`
are required (checked in declaration order), the two expressions optional,
unknown keys ignored. -/
def decodeModuleCall : Json → Except SchemaError ModuleCall
  | .obj fields =>
    (match visitCallFields ⟨none, none, none, none⟩ fields with
     | .error e => .error e
     | .ok ⟨none, _, _, _⟩ => .error (.missingField "module")
     | .ok ⟨some _, none, _, _⟩ => .error (.missingField "source")
     | .ok ⟨some m, some src, sc, sf⟩ =>
       .ok (ModuleCall.mk m src sc.join sf.join))
  | _ => .error .typeMismatch
termination_by j => sizeOf j

/-- One visited field of a `ModuleCall` map: the four declared fields are
stored (duplicates rejected), any other key is `IgnoredAny`. -/
def stepCallField (slots : CallSlots) (k : String) (v : Json) :
    Except SchemaError CallSlots :=
  if k = "module" then applyCallModule slots (decodeModule v)
  else if k = "source" then applyCallSource slots v
  else if k = "count_expression" then applyCallCount slots (decodeOptCount v)
  else if k = "for_each_expression" then
    applyCallForEach slots (decodeOptForEach v)
  else .ok slots
termination_by sizeOf v + 1

/-- The field loop of the derived `Deserialize` for `ModuleCall`. -/
def visitCallFields (slots : CallSlots) :
    List (String × Json) → Except SchemaError CallSlots
  | [] => .ok slots
  | (k, v) :: rest =>
    match stepCallField slots k v with
    | .error e => .error e
    | .ok slots2 => visitCallFields slots2 rest
termination_by l => sizeOf l
end

/-- One visited field of a `Configuration` map. -/
def stepConfigurationField (slot : Option Module) (k : String) (v : Json) :
    Except SchemaError (Option Module) :=
  if k = "root_module" then
    match slot with
    | some _ => .error (.duplicateField "root_module")
    | none =>
      match decodeModule v with
      | .error e => .error e
      | .ok m => .ok (some m)
  else .ok slot

/-- The field loop of the derived `Deserialize` for `Configuration`. -/
def visitConfigurationFields (slot : Option Module) :
    List (String × Json) → Except SchemaError (Option Module)
  | [] => .ok slot
  | (k, v) :: rest =>
    match stepConfigurationField slot k v with
    | .error e => .error e
    | .ok slot2 => visitConfigurationFields slot2 rest

/-- `struct Configuration<'a> { root_module: Module<'a> }`. -/
structure Configuration where
  root_module : Module

/-- Derived `Deserialize` for `Configuration`: `root_module` required. -/
def decodeConfiguration : Json → Except SchemaError Configuration
  | .obj fields =>
    (match visitConfigurationFields none fields with
     | .error e => .error e
     | .ok none => .error (.missingField "root_module")
     | .ok (some m) => .ok ⟨m⟩)
  | _ => .error .typeMismatch

/-- `struct Show<'a> { configuration: Configuration<'a> }`. -/
structure Show where
  configuration : Configuration

/-- One visited field of a `Show` map. -/
def stepShowField (slot : Option Configuration) (k : String) (v : Json) :
    Except SchemaError (Option Configuration) :=
  if k = "configuration" then
    match slot with
    | some _ => .error (.duplicateField "configuration")
    | none =>
      match decodeConfiguration v with
      | .error e => .error e
      | .ok c => .ok (some c)
  else .ok slot

/-- The field loop of the derived `Deserialize` for `Show`. -/
def visitShowFields (slot : Option Configuration) :
    List (String × Json) → Except SchemaError (Option Configuration)
  | [] => .ok slot
  | (k, v) :: rest =>
    match stepShowField slot k v with
    | .error e => .error e
    | .ok slot2 => visitShowFields slot2 rest

/-- Derived `Deserialize` for `Show`: `configuration` required.  This is the
whole-document entry point used by `main`. -/
def decodeShow : Json → Except SchemaError Show
  | .obj fields =>
    (match visitShowFields none fields with
     | .error e => .error e
     | .ok none => .error (.missingField "configuration")
     | .ok (some c) => .ok ⟨c⟩)
  | _ => .error .typeMismatch

mutual
/-- The number of module calls in a document (one tree node arises from each
call). -/
def Module.callCount : Module → Nat
  | .mk none => 0
  | .mk (some calls) => callsCount calls

/-- The number of module calls in a call list, nested calls included. -/
def callsCount : List (String × ModuleCall) → Nat
  | [] => 0
  | (_, .mk m _ _ _) :: rest => 1 + Module.callCount m + callsCount rest
end

mutual
/-- The number of nodes of a tree. -/
def Tree.size {α : Type} : Tree α → Nat
  | .node _ cs => 1 + Tree.sizeList cs

/-- The total number of nodes of a list of trees. -/
def Tree.sizeList {α : Type} : List (Tree α) → Nat
  | [] => 0
  | t :: rest => Tree.size t + Tree.sizeList rest
end

/-- Every `module_calls` map in the document has pairwise-distinct keys, as
any value of `HashMap` type does. -/
inductive WFModule : Module → Prop where
  | none : WFModule (.mk none)
  | some {calls : List (String × ModuleCall)} :
      (calls.map Prod.fst).Nodup →
      (∀ p ∈ calls, WFModule p.2.module) →
      WFModule (.mk (some calls))

/-- No two sibling nodes anywhere in the tree share a name. -/
inductive NodupNames : Tree TreeNode → Prop where
  | node {v : TreeNode} {cs : List (Tree TreeNode)} :
      (cs.map treeName).Nodup →
      (∀ t ∈ cs, NodupNames t) →
      NodupNames (.node v cs)

/-- The node suffix asserted by the design document: the count form when
`count` is present, the key-set form when `for_each` is present, nothing
when neither is present.  The document asserts the two forms never appear
together, so no single claimed suffix exists when both fields are present. -/
def claimedSuffix : Option Nat → Option (List String) → Option String
  | some c, none => some ("[" ++ toString c ++ "]")
  | none, some ks => some ("\x7b" ++ writeKeys ks ++ "\x7d")
  | none, none => some ""
  | some _, some _ => none

/-- First-occurrence lookup in a JSON object. -/
def jsonField (name : String) : List (String × Json) → Option Json
  | [] => none
  | (k, v) :: rest => if k = name then some v else jsonField name rest

/-- The names of the root module's calls, in the document's own order. -/
def docRootCallNames (j : Json) : Option (List String) :=
  match j with
  | .obj f =>
    match jsonField "configuration" f with
    | some (.obj g) =>
      (match jsonField "root_module" g with
       | some (.obj h) =>
         (match jsonField "module_calls" h with
          | some (.obj entries) => some (entries.map Prod.fst)
          | _ => none)
       | _ => none)
    | _ => none
  | _ => none

/-- A filesystem on which canonicalization is the identity and always
succeeds. -/
def fsId : FS := ⟨fun p => some p⟩

/-- A filesystem on which canonicalization always fails. -/
def fsFail : FS := ⟨fun _ => none⟩

/-- A filesystem that resolves the joined project path `home/.` to `home`
and is the identity elsewhere. -/
def fsDot : FS :=
  ⟨fun p =>
    if p = [OsStr.valid "home", OsStr.valid "."] then some [OsStr.valid "home"]
    else some p⟩

/-- A two-call plan document whose root module calls `a` then `b`, in that
document order. -/
def jOrder : Json :=
  .obj [("configuration", .obj [("root_module", .obj [("module_calls", .obj
    [("a", .obj [("source", .str "sa"), ("module", .obj [])]),
     ("b", .obj [("source", .str "sb"), ("module", .obj [])])])])])]

/-- The decoded call named `a` of `jOrder`. -/
def callA : ModuleCall := .mk (.mk none) "sa" none none

/-- The decoded call named `b` of `jOrder`. -/
def callB : ModuleCall := .mk (.mk none) "sb" none none

/-! ## Renderer lemmas -/

/-- Node formatting in closed form when canonicalization and text conversion
both succeed. -/
theorem fmt_success (fs : FS) (n : TreeNode) (p : Path) (s : String)
    (hc : fs.canonicalize n.source = some p) (hs : Path.to_str p = some s) :
    TreeNode.fmt fs n =
      (n.name ++ countSuffix n.count ++ forEachSuffix n.for_each ++ " (" ++ s ++ ")",
       true) := by
  simp [TreeNode.fmt, hc, hs]

/-- Node formatting when render-time canonicalization fails: nothing is
written. -/
theorem fmt_fail_canon (fs : FS) (n : TreeNode)
    (hc : fs.canonicalize n.source = none) :
    TreeNode.fmt fs n = ("", false) := by
  simp [TreeNode.fmt, hc]

/-- Node formatting when the canonical path is not displayable: the name and
suffixes were already written, the path part is not. -/
theorem fmt_fail_str (fs : FS) (n : TreeNode) (p : Path)
    (hc : fs.canonicalize n.source = some p) (hs : Path.to_str p = none) :
    TreeNode.fmt fs n =
      (n.name ++ countSuffix n.count ++ forEachSuffix n.for_each, false) := by
  simp [TreeNode.fmt, hc, hs]

/-! ## Claim theorems -/

/-- Claim C2, counterexample.  The claim asserts that for every `TreeNode`
at most one instance-annotation suffix appears — in particular that for no
node do the `[count]` and `\x7b keys \x7d` forms appear together.  The source
renders the two suffixes with two independent `if let`s, so a node carrying
both `count = 2` and `for_each = ["a"]` renders both forms: the claimed
single suffix does not exist (`claimedSuffix` is `none` for it), and the
actual rendered line is `m[2]\x7ba\x7d (p)`. -/
theorem c2_counterexample :
    ¬ (∃ suf, claimedSuffix (some 2) (some ["a"]) = some suf ∧
        (TreeNode.fmt fsId ⟨"m", some 2, some ["a"], [OsStr.valid "p"]⟩).1
          = "m" ++ suf ++ " (p)")
    ∧ (TreeNode.fmt fsId ⟨"m", some 2, some ["a"], [OsStr.valid "p"]⟩).1
        = "m[2]\x7ba\x7d (p)" := by
  constructor
  · rintro ⟨suf, hsuf, _⟩
    simp [claimedSuffix] at hsuf
  · decide

/-- Claim C2, amended: the rendered line is always
`name ++ countSuffix ++ forEachSuffix ++ " (path)"` — when both `count` and
`for_each` are present both suffixes appear, count first; when at most one
of them is present, exactly the claimed single suffix form appears. -/
theorem c2_theorem (fs : FS) (n : TreeNode) (p : Path) (s : String)
    (hc : fs.canonicalize n.source = some p) (hs : Path.to_str p = some s) :
    (TreeNode.fmt fs n).1
      = n.name ++ countSuffix n.count ++ forEachSuffix n.for_each ++ " (" ++ s ++ ")"
    ∧ ((n.count = none ∨ n.for_each = none) →
        ∃ suf, claimedSuffix n.count n.for_each = some suf ∧
          (TreeNode.fmt fs n).1 = n.name ++ suf ++ " (" ++ s ++ ")") := by
  have h := fmt_success fs n p s hc hs
  refine ⟨by rw [h], ?_⟩
  intro hone
  rcases hcnt : n.count with _ | c
  · rcases hfe : n.for_each with _ | ks
    · exact ⟨"", by simp [claimedSuffix],
        by simp [h, hcnt, hfe, countSuffix, forEachSuffix, String.append_empty,
          String.append_assoc]⟩
    · exact ⟨"\x7b" ++ writeKeys ks ++ "\x7d", by simp [claimedSuffix],
        by simp [h, hcnt, hfe, countSuffix, forEachSuffix, String.append_empty,
          String.append_assoc]⟩
  · rcases hfe : n.for_each with _ | ks
    · exact ⟨"[" ++ toString c ++ "]", by simp [claimedSuffix],
        by simp [h, hcnt, hfe, countSuffix, forEachSuffix, String.append_empty,
          String.append_assoc]⟩
    · rcases hone with h1 | h1 <;> simp [hcnt, hfe] at h1

/-- Claim C2, witness: a node with `count = 2` and no `for_each` renders
the single suffix `[2]`. -/
theorem c2_witness :
    fsId.canonicalize [OsStr.valid "p"] = some [OsStr.valid "p"]
    ∧ Path.to_str [OsStr.valid "p"] = some "p"
    ∧ (TreeNode.fmt fsId ⟨"m", some 2, none, [OsStr.valid "p"]⟩).1
        = "m" ++ countSuffix (some 2) ++ forEachSuffix none ++ " (" ++ "p" ++ ")" :=
  ⟨rfl, by decide,
    (c2_theorem fsId ⟨"m", some 2, none, [OsStr.valid "p"]⟩ [OsStr.valid "p"] "p"
      rfl (by decide)).1⟩

/-- Claim C4, counterexample.  The claim asserts rendering a node fails if
and only if the node's resolved path cannot be converted to displayable
text.  But the renderer canonicalizes the node's path again at render time
and fails on that too: on a filesystem where canonicalization fails,
formatting fails even though the node's path is perfectly displayable. -/
theorem c4_counterexample :
    (TreeNode.fmt fsFail ⟨"m", none, none, [OsStr.valid "p"]⟩).2 = false
    ∧ Path.to_str [OsStr.valid "p"] = some "p" := by
  constructor
  · rfl
  · decide

/-- Claim C4, amended: rendering a node fails iff the render-time
re-canonicalization of its path fails or the canonical path is not
convertible to displayable text; and a root-node failure aborts printing of
the whole tree while keeping the output already written (the failing
node's partial text is returned unchanged, nothing is retracted). -/
theorem c4_theorem (fs : FS) (n : TreeNode) (cs : List (Tree TreeNode)) :
    ((TreeNode.fmt fs n).2 = false ↔
      fs.canonicalize n.source = none ∨
        ∃ p, fs.canonicalize n.source = some p ∧ Path.to_str p = none)
    ∧ ((TreeNode.fmt fs n).2 = false →
        printTree fs (.node n cs) = ((TreeNode.fmt fs n).1, false)) := by
  constructor
  · cases hc : fs.canonicalize n.source with
    | none => simp [fmt_fail_canon fs n hc, hc]
    | some p =>
      cases hs : Path.to_str p with
      | none => simp [fmt_fail_str fs n p hc hs, hc, hs]
      | some s => simp [fmt_success fs n p s hc hs, hc, hs]
  · intro hf
    rcases h : TreeNode.fmt fs n with ⟨l, ok⟩
    have hok : ok = false := by rw [h] at hf; simpa using hf
    subst hok
    simp [printTree, h]

/-- Claim C4, witness: on a failing filesystem the root node's formatting
fails and tree printing returns the partial output with a failure flag. -/
theorem c4_witness :
    (TreeNode.fmt fsFail ⟨"x", none, none, []⟩).2 = false
    ∧ printTree fsFail (.node ⟨"x", none, none, []⟩ [])
        = ((TreeNode.fmt fsFail ⟨"x", none, none, []⟩).1, false) :=
  ⟨rfl, (c4_theorem fsFail ⟨"x", none, none, []⟩ []).2 rfl⟩

/-- Claim C6, confirmed: a node whose `for_each` is present but empty
renders the suffix `\x7b\x7d`, while an otherwise-equal node with no
`for_each` renders no suffix, and the two lines differ. -/
theorem c6_theorem (fs : FS) (n n2 : TreeNode) (p : Path) (s : String)
    (hc : fs.canonicalize n.source = some p) (hs : Path.to_str p = some s)
    (hfe : n.for_each = some []) (hcnt : n.count = none)
    (hc2 : fs.canonicalize n2.source = some p) (hname : n2.name = n.name)
    (hfe2 : n2.for_each = none) (hcnt2 : n2.count = none) :
    (TreeNode.fmt fs n).1 = n.name ++ "\x7b\x7d" ++ " (" ++ s ++ ")"
    ∧ (TreeNode.fmt fs n2).1 = n.name ++ " (" ++ s ++ ")"
    ∧ (TreeNode.fmt fs n).1 ≠ (TreeNode.fmt fs n2).1 := by
  have h1 := fmt_success fs n p s hc hs
  have h2 := fmt_success fs n2 p s hc2 hs
  have e1 : (TreeNode.fmt fs n).1 = n.name ++ "\x7b\x7d" ++ " (" ++ s ++ ")" := by
    simp [h1, hcnt, hfe, countSuffix, forEachSuffix, writeKeys,
      String.empty_append, String.append_assoc]
  have e2 : (TreeNode.fmt fs n2).1 = n.name ++ " (" ++ s ++ ")" := by
    simp [h2, hcnt2, hfe2, hname, countSuffix, forEachSuffix,
      String.empty_append, String.append_assoc]
  refine ⟨e1, e2, ?_⟩
  rw [e1, e2]
  intro heq
  have hlen := congrArg String.length heq
  have l1 : ("\x7b\x7d" : String).length = 2 := by decide
  have l2 : (" (" : String).length = 2 := by decide
  have l3 : (")" : String).length = 1 := by decide
  simp [String.length_append, l1, l2, l3] at hlen

/-- Claim C6, witness: concrete nodes exhibiting the `\x7b\x7d` suffix and
its absence. -/
theorem c6_witness :
    fsId.canonicalize [OsStr.valid "p"] = some [OsStr.valid "p"]
    ∧ Path.to_str [OsStr.valid "p"] = some "p"
    ∧ (TreeNode.fmt fsId ⟨"m", none, some [], [OsStr.valid "p"]⟩).1
        = "m" ++ "\x7b\x7d" ++ " (" ++ "p" ++ ")"
    ∧ (TreeNode.fmt fsId ⟨"m", none, some [], [OsStr.valid "p"]⟩).1
        ≠ (TreeNode.fmt fsId ⟨"m", none, none, [OsStr.valid "p"]⟩).1 := by
  have h := c6_theorem fsId ⟨"m", none, some [], [OsStr.valid "p"]⟩
    ⟨"m", none, none, [OsStr.valid "p"]⟩ [OsStr.valid "p"] "p"
    rfl (by decide) rfl rfl rfl rfl rfl rfl
  exact ⟨rfl, by decide, h.1, h.2.2⟩

/-- Claim C8, confirmed: rendering is deterministic — the printer is a pure
function of the tree and of the (single, fixed) filesystem state, so
rendering the same tree value twice produces byte-identical output.  The
only stateful input, the filesystem consulted by the render-time
canonicalization, is held fixed as the parameter `fs`. -/
theorem c8_theorem (fs : FS) (t u : Tree TreeNode) (h : t = u) :
    printTree fs t = printTree fs u := by rw [h]

/-- Claim C8, witness: a concrete double rendering. -/
theorem c8_witness :
    printTree fsId (Tree.node ⟨"*", none, none, []⟩ [])
      = printTree fsId (Tree.node ⟨"*", none, none, []⟩ []) :=
  c8_theorem fsId (Tree.node ⟨"*", none, none, []⟩ [])
    (Tree.node ⟨"*", none, none, []⟩ []) rfl

/-- Claim C1, counterexample.  The claim asserts that when a module call's
joined source path fails to canonicalize, tree construction still succeeds
and falls back to the literal joined path.  The source instead calls
`canonicalize().expect("terraform provided incorrect path")`: on a
filesystem where the joined path does not canonicalize, construction
panics (modelled as `none`) — it does not succeed, and there is no
fallback. -/
theorem c1_counterexample :
    Module.into_trees fsFail [] []
      (.mk (some [("vpc", .mk (.mk none) "missing" none none)])) = none := by
  simp [Module.into_trees, intoTreesList, fsFail]

/-- Claim C1, amended: when a call's joined source path fails to
canonicalize, tree construction panics (aborts); when it canonicalizes
successfully, the node's source is the canonicalized path, not the literal
joined path. -/
theorem c1_theorem (fs : FS) (base parent : Path) (name src : String)
    (m : Module) (cnt : Option Nat) (fe : Option (List String))
    (rest : List (String × ModuleCall)) :
    (fs.canonicalize (pushStr parent src) = none →
      Module.into_trees fs base parent
        (.mk (some ((name, .mk m src cnt fe) :: rest))) = none)
    ∧ (∀ cp children ts,
        fs.canonicalize (pushStr parent src) = some cp →
        Module.into_trees fs base (pushStr parent src) m = some children →
        intoTreesList fs base parent rest = some ts →
        Module.into_trees fs base parent
          (.mk (some ((name, .mk m src cnt fe) :: rest)))
          = some (Tree.node ⟨name, cnt, fe, cp⟩ children :: ts)) := by
  constructor
  · intro hc
    simp [Module.into_trees, intoTreesList, hc]
  · intro cp children ts hc hm hr
    simp [Module.into_trees, intoTreesList, hc, hm, hr]

/-- Claim C1, witness: a concrete successful construction, with the node's
source equal to the canonicalized joined path. -/
theorem c1_witness :
    fsId.canonicalize (pushStr [] "s") = some (pushStr [] "s")
    ∧ Module.into_trees fsId [] (pushStr [] "s") (.mk none) = some []
    ∧ intoTreesList fsId [] [] [] = some []
    ∧ Module.into_trees fsId [] []
        (.mk (some [("n", .mk (.mk none) "s" none none)]))
        = some [Tree.node ⟨"n", none, none, pushStr [] "s"⟩ []] :=
  ⟨rfl, by simp [Module.into_trees], by simp [intoTreesList],
    (c1_theorem fsId [] [] "n" "s" (.mk none) none none []).2
      (pushStr [] "s") [] [] rfl (by simp [Module.into_trees])
      (by simp [intoTreesList])⟩

mutual
/-- The builder produces exactly one node per module call: the total node
count of the produced forest equals the document's call count. -/
theorem into_trees_size (fs : FS) (base parent : Path) (m : Module)
    (ts : List (Tree TreeNode))
    (h : Module.into_trees fs base parent m = some ts) :
    Tree.sizeList ts = m.callCount := by
  cases m with
  | mk mc =>
    cases mc with
    | none =>
      simp [Module.into_trees] at h
      subst h
      simp [Tree.sizeList, Module.callCount]
    | some calls =>
      simp only [Module.into_trees] at h
      rw [Module.callCount]
      exact intoTreesList_size fs base parent calls ts h

/-- List version of `into_trees_size`. -/
theorem intoTreesList_size (fs : FS) (base parent : Path)
    (l : List (String × ModuleCall)) (ts : List (Tree TreeNode))
    (h : intoTreesList fs base parent l = some ts) :
    Tree.sizeList ts = callsCount l := by
  cases l with
  | nil =>
    simp [intoTreesList] at h
    subst h
    simp [Tree.sizeList, callsCount]
  | cons hd rest =>
    obtain ⟨name, call⟩ := hd
    cases call with
    | mk m2 src cnt fe =>
      rw [intoTreesList] at h
      cases hc : fs.canonicalize (pushStr parent src) with
      | none => rw [hc] at h; exact absurd h (by simp)
      | some source =>
        rw [hc] at h
        cases hm : Module.into_trees fs base (pushStr parent src) m2 with
        | none => rw [hm] at h; exact absurd h (by simp)
        | some children =>
          rw [hm] at h
          cases hr : intoTreesList fs base parent rest with
          | none => rw [hr] at h; exact absurd h (by simp)
          | some ts2 =>
            rw [hr] at h
            simp only [Option.some.injEq] at h
            have h1 := into_trees_size fs base (pushStr parent src) m2 children hm
            have h2 := intoTreesList_size fs base parent rest ts2 hr
            rw [← h, callsCount]
            simp only [Tree.sizeList, Tree.size, h1, h2]
end

/-- Claim C9, confirmed: the recursive tree construction is a total,
structurally terminating function of the finite document (it is accepted by
Lean's termination checker with no depth limit or cycle detection in its
definition); a module with no calls yields the empty forest, and otherwise
the output has exactly one node per module call of the document, the
recursion proceeding only into the strictly nested sub-modules. -/
theorem c9_theorem (fs : FS) (base parent : Path) (m : Module) :
    (m.module_calls = none → Module.into_trees fs base parent m = some [])
    ∧ (∀ ts, Module.into_trees fs base parent m = some ts →
        Tree.sizeList ts = m.callCount) := by
  constructor
  · intro h
    cases m with
    | mk mc =>
      simp only [Module.module_calls] at h
      subst h
      simp [Module.into_trees]
  · intro ts h
    exact into_trees_size fs base parent m ts h

/-- Claim C9, witness: the base case and the node count on a small concrete
document. -/
theorem c9_witness :
    (Module.mk none).module_calls = none
    ∧ Module.into_trees fsId [] [] (.mk none) = some []
    ∧ Tree.sizeList ([] : List (Tree TreeNode)) = (Module.mk none).callCount :=
  ⟨rfl, (c9_theorem fsId [] [] (.mk none)).1 rfl,
    (c9_theorem fsId [] [] (.mk none)).2 []
      ((c9_theorem fsId [] [] (.mk none)).1 rfl)⟩

/-- Claim C5, counterexample.  The claim asserts the synthetic root's source
equals the project's canonicalized directory.  `main` computes
`terraform_dir.canonicalize()` only to check it succeeds and discards the
result, so the root node keeps the literal joined path: with current
directory `home` and path argument `.`, the root's source is `home/.` even
though its canonical form is `home`. -/
theorem c5_counterexample :
    mkRootTree fsDot [OsStr.valid "home"] [OsStr.valid "."] (.mk none)
      = some (Tree.node
          ⟨"*", none, none, [OsStr.valid "home", OsStr.valid "."]⟩ [])
    ∧ fsDot.canonicalize [OsStr.valid "home", OsStr.valid "."]
        = some [OsStr.valid "home"]
    ∧ ([OsStr.valid "home", OsStr.valid "."] : Path) ≠ [OsStr.valid "home"] := by
  refine ⟨?_, by decide, by decide⟩
  simp [mkRootTree, fsDot, Module.into_trees]

/-- Claim C5, amended: the synthetic root node has name `"*"`, no count and
no for_each, and its source is the literal joined project directory (current
directory joined with the path argument), whose canonicalizability is
checked but whose canonical form is discarded. -/
theorem c5_theorem (fs : FS) (cwd argPath : Path) (m : Module) (c : Path)
    (ts : List (Tree TreeNode))
    (hc : fs.canonicalize (cwd ++ argPath) = some c)
    (hts : Module.into_trees fs (cwd ++ argPath) (cwd ++ argPath) m = some ts) :
    mkRootTree fs cwd argPath m
      = some (Tree.node ⟨"*", none, none, cwd ++ argPath⟩ ts) := by
  simp [mkRootTree, hc, hts]

/-- Claim C5, witness: a concrete root construction. -/
theorem c5_witness :
    fsId.canonicalize ([OsStr.valid "a"] ++ []) = some ([OsStr.valid "a"] ++ [])
    ∧ Module.into_trees fsId ([OsStr.valid "a"] ++ [])
        ([OsStr.valid "a"] ++ []) (.mk none) = some []
    ∧ mkRootTree fsId [OsStr.valid "a"] [] (.mk none)
        = some (Tree.node ⟨"*", none, none, [OsStr.valid "a"] ++ []⟩ []) :=
  ⟨rfl, by simp [Module.into_trees],
    c5_theorem fsId [OsStr.valid "a"] [] (.mk none) ([OsStr.valid "a"] ++ []) []
      rfl (by simp [Module.into_trees])⟩

/-! ## Deserialization lemmas -/

/-- The slot updates preserve the `source` slot (module store). -/
theorem applyCallModule_source (slots out : CallSlots)
    (r : Except SchemaError Module) (h : applyCallModule slots r = .ok out) :
    out.source = slots.source := by
  obtain ⟨sm, ss, sc, sf⟩ := slots
  cases sm with
  | some m => simp [applyCallModule] at h
  | none =>
    cases r with
    | error e => simp [applyCallModule] at h
    | ok m =>
      simp only [applyCallModule, Except.ok.injEq] at h
      rw [← h]

/-- The slot updates preserve the `module` slot (source store). -/
theorem applyCallSource_module (slots out : CallSlots) (v : Json)
    (h : applyCallSource slots v = .ok out) :
    out.module = slots.module := by
  obtain ⟨sm, ss, sc, sf⟩ := slots
  cases ss with
  | some s => simp [applyCallSource] at h
  | none =>
    cases v with
    | str s =>
      simp only [applyCallSource, Except.ok.injEq] at h
      rw [← h]
    | _ => simp [applyCallSource] at h

/-- The count store preserves the `source` and `module` slots. -/
theorem applyCallCount_slots (slots out : CallSlots)
    (r : Except SchemaError (Option Nat)) (h : applyCallCount slots r = .ok out) :
    out.source = slots.source ∧ out.module = slots.module := by
  obtain ⟨sm, ss, sc, sf⟩ := slots
  cases sc with
  | some c => simp [applyCallCount] at h
  | none =>
    cases r with
    | error e => simp [applyCallCount] at h
    | ok c =>
      simp only [applyCallCount, Except.ok.injEq] at h
      rw [← h]
      exact ⟨rfl, rfl⟩

/-- The for-each store preserves the `source` and `module` slots. -/
theorem applyCallForEach_slots (slots out : CallSlots)
    (r : Except SchemaError (Option (List String)))
    (h : applyCallForEach slots r = .ok out) :
    out.source = slots.source ∧ out.module = slots.module := by
  obtain ⟨sm, ss, sc, sf⟩ := slots
  cases sf with
  | some fe => simp [applyCallForEach] at h
  | none =>
    cases r with
    | error e => simp [applyCallForEach] at h
    | ok fe =>
      simp only [applyCallForEach, Except.ok.injEq] at h
      rw [← h]
      exact ⟨rfl, rfl⟩

/-- A field whose key is none of the four declared `ModuleCall` fields is
deserialized as `IgnoredAny`: the slots are unchanged. -/
theorem stepCallField_unknown (slots : CallSlots) (k : String) (v : Json)
    (h1 : k ≠ "module") (h2 : k ≠ "source") (h3 : k ≠ "count_expression")
    (h4 : k ≠ "for_each_expression") :
    stepCallField slots k v = .ok slots := by
  simp [stepCallField, h1, h2, h3, h4]

/-- Dropping an unknown field anywhere in a `ModuleCall` map leaves the
field visit unchanged. -/
theorem visitCallFields_skip (k : String) (v : Json)
    (h1 : k ≠ "module") (h2 : k ≠ "source") (h3 : k ≠ "count_expression")
    (h4 : k ≠ "for_each_expression") (pre post : List (String × Json)) :
    ∀ slots : CallSlots,
      visitCallFields slots (pre ++ (k, v) :: post)
        = visitCallFields slots (pre ++ post) := by
  induction pre with
  | nil =>
    intro slots
    simp only [List.nil_append, visitCallFields,
      stepCallField_unknown slots k v h1 h2 h3 h4]
  | cons hd tl ih =>
    intro slots
    obtain ⟨k2, v2⟩ := hd
    simp only [List.cons_append, visitCallFields]
    cases hstep : stepCallField slots k2 v2 with
    | error e => rfl
    | ok slots2 => exact ih slots2

/-- A step on a key other than `source` leaves the `source` slot unchanged. -/
theorem stepCallField_source (slots slots2 : CallSlots) (k : String) (v : Json)
    (hk : k ≠ "source") (h : stepCallField slots k v = .ok slots2) :
    slots2.source = slots.source := by
  simp only [stepCallField] at h
  by_cases h1 : k = "module"
  · rw [if_pos h1] at h
    exact applyCallModule_source slots slots2 (decodeModule v) h
  · rw [if_neg h1, if_neg hk] at h
    by_cases h3 : k = "count_expression"
    · rw [if_pos h3] at h
      exact (applyCallCount_slots slots slots2 (decodeOptCount v) h).1
    · rw [if_neg h3] at h
      by_cases h4 : k = "for_each_expression"
      · rw [if_pos h4] at h
        exact (applyCallForEach_slots slots slots2 (decodeOptForEach v) h).1
      · rw [if_neg h4] at h
        simp only [Except.ok.injEq] at h
        rw [← h]

/-- A step on a key other than `module` leaves the `module` slot unchanged. -/
theorem stepCallField_module (slots slots2 : CallSlots) (k : String) (v : Json)
    (hk : k ≠ "module") (h : stepCallField slots k v = .ok slots2) :
    slots2.module = slots.module := by
  simp only [stepCallField] at h
  rw [if_neg hk] at h
  by_cases h2 : k = "source"
  · rw [if_pos h2] at h
    exact applyCallSource_module slots slots2 v h
  · rw [if_neg h2] at h
    by_cases h3 : k = "count_expression"
    · rw [if_pos h3] at h
      exact (applyCallCount_slots slots slots2 (decodeOptCount v) h).2
    · rw [if_neg h3] at h
      by_cases h4 : k = "for_each_expression"
      · rw [if_pos h4] at h
        exact (applyCallForEach_slots slots slots2 (decodeOptForEach v) h).2
      · rw [if_neg h4] at h
        simp only [Except.ok.injEq] at h
        rw [← h]

/-- When no `source` key occurs, the visit leaves the `source` slot at its
initial value. -/
theorem visitCallFields_source_none (l : List (String × Json)) :
    ∀ (slots out : CallSlots), "source" ∉ l.map Prod.fst →
      visitCallFields slots l = .ok out → out.source = slots.source := by
  induction l with
  | nil =>
    intro slots out _ h
    simp only [visitCallFields, Except.ok.injEq] at h
    rw [← h]
  | cons hd tl ih =>
    intro slots out hmem h
    obtain ⟨k, v⟩ := hd
    have hk : k ≠ "source" := by
      intro e
      exact hmem (by simp [e])
    have hmem2 : "source" ∉ tl.map Prod.fst := by
      intro e
      exact hmem (by simp [e])
    simp only [visitCallFields] at h
    cases hstep : stepCallField slots k v with
    | error e => rw [hstep] at h; exact absurd h (by simp)
    | ok slots2 =>
      rw [hstep] at h
      rw [ih slots2 out hmem2 h,
        stepCallField_source slots slots2 k v hk hstep]

/-- When no `module` key occurs, the visit leaves the `module` slot at its
initial value. -/
theorem visitCallFields_module_none (l : List (String × Json)) :
    ∀ (slots out : CallSlots), "module" ∉ l.map Prod.fst →
      visitCallFields slots l = .ok out → out.module = slots.module := by
  induction l with
  | nil =>
    intro slots out _ h
    simp only [visitCallFields, Except.ok.injEq] at h
    rw [← h]
  | cons hd tl ih =>
    intro slots out hmem h
    obtain ⟨k, v⟩ := hd
    have hk : k ≠ "module" := by
      intro e
      exact hmem (by simp [e])
    have hmem2 : "module" ∉ tl.map Prod.fst := by
      intro e
      exact hmem (by simp [e])
    simp only [visitCallFields] at h
    cases hstep : stepCallField slots k v with
    | error e => rw [hstep] at h; exact absurd h (by simp)
    | ok slots2 =>
      rw [hstep] at h
      rw [ih slots2 out hmem2 h,
        stepCallField_module slots slots2 k v hk hstep]

/-- A `source` field whose value is not a JSON string is rejected as a type
mismatch by the field step (`&str` only deserializes from a string). -/
theorem stepCallField_source_mismatch (v : Json) (hv : ∀ s, v ≠ Json.str s) :
    stepCallField ⟨none, none, none, none⟩ "source" v
      = .error .typeMismatch := by
  have h : stepCallField ⟨none, none, none, none⟩ "source" v
      = applyCallSource ⟨none, none, none, none⟩ v := by
    simp [stepCallField]
  rw [h]
  cases v with
  | str s => exact absurd rfl (hv s)
  | null => rfl
  | bool b => rfl
  | num n => rfl
  | arr xs => rfl
  | obj f => rfl

/-- A non-object value cannot deserialize to a `Module`. -/
theorem decodeModule_mismatch (v : Json) (hv : ∀ f, v ≠ Json.obj f) :
    decodeModule v = .error .typeMismatch := by
  cases v with
  | obj f => exact absurd rfl (hv f)
  | null => simp [decodeModule]
  | bool b => simp [decodeModule]
  | num n => simp [decodeModule]
  | str s => simp [decodeModule]
  | arr xs => simp [decodeModule]

/-- A `module` field whose value is not a JSON object is rejected as a type
mismatch by the field step. -/
theorem stepCallField_module_mismatch (v : Json) (hv : ∀ f, v ≠ Json.obj f) :
    stepCallField ⟨none, none, none, none⟩ "module" v
      = .error .typeMismatch := by
  have h : stepCallField ⟨none, none, none, none⟩ "module" v
      = applyCallModule ⟨none, none, none, none⟩ (decodeModule v) := by
    simp [stepCallField]
  rw [h, decodeModule_mismatch v hv]
  rfl

/-- A present `count_expression` that is neither `null` nor an object is a
type mismatch for `Option<CountExpression>`. -/
theorem decodeOptCount_mismatch (v : Json) (h0 : v ≠ Json.null)
    (hv : ∀ f, v ≠ Json.obj f) :
    decodeOptCount v = .error .typeMismatch := by
  cases v with
  | null => exact absurd rfl h0
  | obj f => exact absurd rfl (hv f)
  | bool b => rfl
  | num n => rfl
  | str s => rfl
  | arr xs => rfl

/-- A wrongly-typed present `count_expression` is rejected by the field
step. -/
theorem stepCallField_count_mismatch (v : Json) (h0 : v ≠ Json.null)
    (hv : ∀ f, v ≠ Json.obj f) :
    stepCallField ⟨none, none, none, none⟩ "count_expression" v
      = .error .typeMismatch := by
  have h : stepCallField ⟨none, none, none, none⟩ "count_expression" v
      = applyCallCount ⟨none, none, none, none⟩ (decodeOptCount v) := by
    simp [stepCallField]
  rw [h, decodeOptCount_mismatch v h0 hv]
  rfl

/-- A present `for_each_expression` that is neither `null` nor an object is
a type mismatch for `Option<ForEachExpression>`. -/
theorem decodeOptForEach_mismatch (v : Json) (h0 : v ≠ Json.null)
    (hv : ∀ f, v ≠ Json.obj f) :
    decodeOptForEach v = .error .typeMismatch := by
  cases v with
  | null => exact absurd rfl h0
  | obj f => exact absurd rfl (hv f)
  | bool b => rfl
  | num n => rfl
  | str s => rfl
  | arr xs => rfl

/-- A wrongly-typed present `for_each_expression` is rejected by the field
step. -/
theorem stepCallField_foreach_mismatch (v : Json) (h0 : v ≠ Json.null)
    (hv : ∀ f, v ≠ Json.obj f) :
    stepCallField ⟨none, none, none, none⟩ "for_each_expression" v
      = .error .typeMismatch := by
  have h : stepCallField ⟨none, none, none, none⟩ "for_each_expression" v
      = applyCallForEach ⟨none, none, none, none⟩ (decodeOptForEach v) := by
    simp [stepCallField]
  rw [h, decodeOptForEach_mismatch v h0 hv]
  rfl

/-- Claim C7, counterexample.  The claim asserts deserialization of a module
call fails exactly when the required field `source` is missing or
type-mismatched.  But `module` is a required field too: a call object
carrying a well-typed `source` and nothing else is rejected with a missing
`module` field. -/
theorem c7_counterexample :
    decodeModuleCall (.obj [("source", .str "./x")])
      = .error (.missingField "module") := by
  simp [decodeModuleCall, visitCallFields, stepCallField, applyCallSource]

/-- Claim C7, amended: module-call deserialization silently ignores unknown
fields (removing one changes nothing); it fails whenever a required field —
`source` or `module` — is missing or carries a type-mismatched value, and
whenever a present optional field (`count_expression` or
`for_each_expression`) has the wrong type. -/
theorem c7_theorem :
    (∀ (k : String) (v : Json) (pre post : List (String × Json)),
      k ≠ "module" → k ≠ "source" → k ≠ "count_expression" →
      k ≠ "for_each_expression" →
      decodeModuleCall (.obj (pre ++ (k, v) :: post))
        = decodeModuleCall (.obj (pre ++ post)))
    ∧ (∀ fields : List (String × Json), "source" ∉ fields.map Prod.fst →
        ∃ e, decodeModuleCall (.obj fields) = .error e)
    ∧ (∀ fields : List (String × Json), "module" ∉ fields.map Prod.fst →
        ∃ e, decodeModuleCall (.obj fields) = .error e)
    ∧ (∀ (v : Json) (rest : List (String × Json)), (∀ s, v ≠ .str s) →
        decodeModuleCall (.obj (("source", v) :: rest))
          = .error .typeMismatch)
    ∧ (∀ (v : Json) (rest : List (String × Json)), (∀ f, v ≠ .obj f) →
        decodeModuleCall (.obj (("module", v) :: rest))
          = .error .typeMismatch)
    ∧ (∀ (v : Json) (rest : List (String × Json)),
        v ≠ .null → (∀ f, v ≠ .obj f) →
        decodeModuleCall (.obj (("count_expression", v) :: rest))
          = .error .typeMismatch)
    ∧ (∀ (v : Json) (rest : List (String × Json)),
        v ≠ .null → (∀ f, v ≠ .obj f) →
        decodeModuleCall (.obj (("for_each_expression", v) :: rest))
          = .error .typeMismatch) := by
  refine ⟨?_, ?_, ?_, ?_, ?_, ?_, ?_⟩
  · intro k v pre post h1 h2 h3 h4
    simp only [decodeModuleCall, visitCallFields_skip k v h1 h2 h3 h4 pre post]
  · intro fields hmem
    cases hv : visitCallFields ⟨none, none, none, none⟩ fields with
    | error e => exact ⟨e, by simp [decodeModuleCall, hv]⟩
    | ok slots =>
      obtain ⟨sm, ss, sc, sf⟩ := slots
      have hs : ss = none := by
        simpa using visitCallFields_source_none fields ⟨none, none, none, none⟩
          ⟨sm, ss, sc, sf⟩ hmem hv
      subst hs
      cases sm with
      | none =>
        exact ⟨.missingField "module", by simp [decodeModuleCall, hv]⟩
      | some m =>
        exact ⟨.missingField "source", by simp [decodeModuleCall, hv]⟩
  · intro fields hmem
    cases hv : visitCallFields ⟨none, none, none, none⟩ fields with
    | error e => exact ⟨e, by simp [decodeModuleCall, hv]⟩
    | ok slots =>
      obtain ⟨sm, ss, sc, sf⟩ := slots
      have hm : sm = none := by
        simpa using visitCallFields_module_none fields ⟨none, none, none, none⟩
          ⟨sm, ss, sc, sf⟩ hmem hv
      subst hm
      exact ⟨.missingField "module", by simp [decodeModuleCall, hv]⟩
  · intro v rest hv
    simp only [decodeModuleCall, visitCallFields]
    rw [stepCallField_source_mismatch v hv]
  · intro v rest hv
    simp only [decodeModuleCall, visitCallFields]
    rw [stepCallField_module_mismatch v hv]
  · intro v rest h0 hv
    simp only [decodeModuleCall, visitCallFields]
    rw [stepCallField_count_mismatch v h0 hv]
  · intro v rest h0 hv
    simp only [decodeModuleCall, visitCallFields]
    rw [stepCallField_foreach_mismatch v h0 hv]

/-! ## Order lemmas -/

/-- The names at the roots of the built forest are exactly the call names,
in the list's own (iteration) order. -/
theorem intoTreesList_names (fs : FS) (base parent : Path) :
    ∀ (l : List (String × ModuleCall)) (ts : List (Tree TreeNode)),
      intoTreesList fs base parent l = some ts →
      ts.map treeName = l.map Prod.fst := by
  intro l
  induction l with
  | nil =>
    intro ts h
    simp [intoTreesList] at h
    subst h
    simp
  | cons hd tl ih =>
    intro ts h
    obtain ⟨name, call⟩ := hd
    cases call with
    | mk m2 src cnt fe =>
      simp only [intoTreesList] at h
      cases hc : fs.canonicalize (pushStr parent src) with
      | none => rw [hc] at h; exact absurd h (by simp)
      | some source =>
        rw [hc] at h
        cases hm : Module.into_trees fs base (pushStr parent src) m2 with
        | none => rw [hm] at h; exact absurd h (by simp)
        | some children =>
          rw [hm] at h
          cases hr : intoTreesList fs base parent tl with
          | none => rw [hr] at h; exact absurd h (by simp)
          | some ts2 =>
            rw [hr] at h
            simp only [Option.some.injEq] at h
            subst h
            simp [treeName, Tree.rootVal, ih ts2 hr]

/-- The key list of a `HashMap` insertion. -/
theorem assocInsert_keys {α : Type} (k : String) (v : α) :
    ∀ l : List (String × α),
      (assocInsert k v l).map Prod.fst = keysInsert k (l.map Prod.fst) := by
  intro l
  induction l with
  | nil => simp [assocInsert, keysInsert]
  | cons hd tl ih =>
    obtain ⟨k2, v2⟩ := hd
    by_cases hk : k2 = k
    · subst hk
      simp [assocInsert, keysInsert]
    · simp only [assocInsert, if_neg hk, List.map_cons, ih, keysInsert]
      by_cases hmem : k ∈ tl.map Prod.fst
      · simp [hmem, Ne.symm hk]
      · simp [hmem, Ne.symm hk]

/-- Keys of the map decoded from a JSON object: the object's keys folded
through `keysInsert`. -/
theorem decodeCalls_keys :
    ∀ (l : List (String × Json)) (acc out : List (String × ModuleCall)),
      decodeCalls acc l = .ok out →
      out.map Prod.fst
        = (l.map Prod.fst).foldl (fun ks k => keysInsert k ks)
            (acc.map Prod.fst) := by
  intro l
  induction l with
  | nil =>
    intro acc out h
    simp [decodeCalls] at h
    subst h
    simp
  | cons hd tl ih =>
    intro acc out h
    obtain ⟨k, v⟩ := hd
    simp only [decodeCalls] at h
    cases hdv : decodeModuleCall v with
    | error e => rw [hdv] at h; exact absurd h (by simp)
    | ok call =>
      rw [hdv] at h
      rw [ih (assocInsert k call acc) out h]
      simp only [List.map_cons, List.foldl_cons, assocInsert_keys]

/-- Folding distinct fresh keys through `keysInsert` appends them in order. -/
theorem foldl_keysInsert (names : List String) :
    ∀ ks : List String, names.Nodup → (∀ n ∈ names, n ∉ ks) →
      names.foldl (fun a k => keysInsert k a) ks = ks ++ names := by
  induction names with
  | nil => intro ks _ _; simp
  | cons n ns ih =>
    intro ks hnd hdisj
    have hn : n ∉ ks := hdisj n (List.mem_cons_self n ns)
    have hnd2 : ns.Nodup := (List.nodup_cons.mp hnd).2
    have hnns : n ∉ ns := (List.nodup_cons.mp hnd).1
    have hdisj2 : ∀ m ∈ ns, m ∉ ks ++ [n] := by
      intro m hm hmem
      rcases List.mem_append.mp hmem with h1 | h2
      · exact hdisj m (List.mem_cons_of_mem n hm) h1
      · rw [List.mem_singleton] at h2
        subst h2
        exact hnns hm
    simp only [List.foldl_cons]
    rw [show keysInsert n ks = ks ++ [n] from by simp [keysInsert, hn]]
    rw [ih (ks ++ [n]) hnd2 hdisj2]
    simp

/-- Evaluation: the call object named `a` in `jOrder` decodes to `callA`. -/
theorem decode_ja :
    decodeModuleCall (Json.obj [("source", .str "sa"), ("module", .obj [])])
      = .ok callA := by
  have h0 : decodeModule (Json.obj []) = .ok (Module.mk none) := by
    simp [decodeModule, visitModuleFields, Option.join]
  simp [decodeModuleCall, visitCallFields, stepCallField, applyCallSource,
    applyCallModule, h0, callA, Option.join]

/-- Evaluation: the call object named `b` in `jOrder` decodes to `callB`. -/
theorem decode_jb :
    decodeModuleCall (Json.obj [("source", .str "sb"), ("module", .obj [])])
      = .ok callB := by
  have h0 : decodeModule (Json.obj []) = .ok (Module.mk none) := by
    simp [decodeModule, visitModuleFields, Option.join]
  simp [decodeModuleCall, visitCallFields, stepCallField, applyCallSource,
    applyCallModule, h0, callB, Option.join]

/-- Evaluation: the root call map of `jOrder` decodes to the two-entry map. -/
theorem decode_jcalls :
    decodeCalls []
        [("a", Json.obj [("source", .str "sa"), ("module", .obj [])]),
         ("b", Json.obj [("source", .str "sb"), ("module", .obj [])])]
      = .ok [("a", callA), ("b", callB)] := by
  simp [decodeCalls, decode_ja, decode_jb, assocInsert]

/-- Defining equation of `visitModuleFields` on the empty list. -/
theorem visitModuleFields_nil (slot : Option (Option (List (String × ModuleCall)))) :
    visitModuleFields slot [] = .ok slot := by
  simp only [visitModuleFields]

/-- Defining equation of `visitModuleFields` on a cons. -/
theorem visitModuleFields_cons
    (slot : Option (Option (List (String × ModuleCall))))
    (k : String) (v : Json) (rest : List (String × Json)) :
    visitModuleFields slot ((k, v) :: rest)
      = match stepModuleField slot k v with
        | .error e => .error e
        | .ok slot2 => visitModuleFields slot2 rest := by
  simp only [visitModuleFields]

/-- Defining equation of `decodeModule` on an object. -/
theorem decodeModule_obj (fields : List (String × Json)) :
    decodeModule (.obj fields)
      = match visitModuleFields none fields with
        | .error e => .error e
        | .ok slot => .ok (Module.mk slot.join) := by
  simp only [decodeModule]

/-- Defining equation of `stepModuleField`. -/
theorem stepModuleField_eq (slot : Option (Option (List (String × ModuleCall))))
    (k : String) (v : Json) :
    stepModuleField slot k v
      = if k = "module_calls" then applyModuleCalls slot (decodeOptCallMap v)
        else .ok slot := by
  simp only [stepModuleField]

/-- Defining equation of `decodeOptCallMap` on an object. -/
theorem decodeOptCallMap_obj (entries : List (String × Json)) :
    decodeOptCallMap (.obj entries)
      = Except.map some (decodeCalls [] entries) := by
  simp only [decodeOptCallMap]

/-- Defining equation of `visitConfigurationFields` on a cons. -/
theorem visitConfigurationFields_cons (slot : Option Module) (k : String)
    (v : Json) (rest : List (String × Json)) :
    visitConfigurationFields slot ((k, v) :: rest)
      = match stepConfigurationField slot k v with
        | .error e => .error e
        | .ok slot2 => visitConfigurationFields slot2 rest := rfl

/-- Defining equation of `stepConfigurationField` on the `root_module` key
with an empty slot. -/
theorem stepConfigurationField_hit (v : Json) :
    stepConfigurationField none "root_module" v
      = match decodeModule v with
        | .error e => .error e
        | .ok m => .ok (some m) := rfl

/-- Defining equation of `decodeConfiguration` on an object. -/
theorem decodeConfiguration_obj (fields : List (String × Json)) :
    decodeConfiguration (.obj fields)
      = match visitConfigurationFields none fields with
        | .error e => .error e
        | .ok none => .error (.missingField "root_module")
        | .ok (some m) => .ok ⟨m⟩ := rfl

/-- Defining equation of `visitShowFields` on a cons. -/
theorem visitShowFields_cons (slot : Option Configuration) (k : String)
    (v : Json) (rest : List (String × Json)) :
    visitShowFields slot ((k, v) :: rest)
      = match stepShowField slot k v with
        | .error e => .error e
        | .ok slot2 => visitShowFields slot2 rest := rfl

/-- Defining equation of `stepShowField` on the `configuration` key with an
empty slot. -/
theorem stepShowField_hit (v : Json) :
    stepShowField none "configuration" v
      = match decodeConfiguration v with
        | .error e => .error e
        | .ok c => .ok (some c) := rfl

/-- Defining equation of `decodeShow` on an object. -/
theorem decodeShow_obj (fields : List (String × Json)) :
    decodeShow (.obj fields)
      = match visitShowFields none fields with
        | .error e => .error e
        | .ok none => .error (.missingField "configuration")
        | .ok (some c) => .ok ⟨c⟩ := rfl

/-- Evaluation: the whole `jOrder` document decodes as expected. -/
theorem decode_jOrder :
    decodeShow jOrder
      = .ok ⟨⟨Module.mk (some [("a", callA), ("b", callB)])⟩⟩ := by
  have e1 : decodeOptCallMap (Json.obj
      [("a", Json.obj [("source", .str "sa"), ("module", .obj [])]),
       ("b", Json.obj [("source", .str "sb"), ("module", .obj [])])])
      = .ok (some [("a", callA), ("b", callB)]) := by
    rw [decodeOptCallMap_obj, decode_jcalls]
    rfl
  have e2 : stepModuleField none "module_calls" (Json.obj
      [("a", Json.obj [("source", .str "sa"), ("module", .obj [])]),
       ("b", Json.obj [("source", .str "sb"), ("module", .obj [])])])
      = .ok (some (some [("a", callA), ("b", callB)])) := by
    rw [stepModuleField_eq, e1]
    rfl
  have e3 : visitModuleFields none [("module_calls", Json.obj
      [("a", Json.obj [("source", .str "sa"), ("module", .obj [])]),
       ("b", Json.obj [("source", .str "sb"), ("module", .obj [])])])]
      = .ok (some (some [("a", callA), ("b", callB)])) := by
    rw [visitModuleFields_cons, e2]
    exact visitModuleFields_nil (some (some [("a", callA), ("b", callB)]))
  have e4 : decodeModule (Json.obj [("module_calls", Json.obj
      [("a", Json.obj [("source", .str "sa"), ("module", .obj [])]),
       ("b", Json.obj [("source", .str "sb"), ("module", .obj [])])])])
      = .ok (Module.mk (some [("a", callA), ("b", callB)])) := by
    rw [decodeModule_obj, e3]
    rfl
  have e5 : stepConfigurationField none "root_module" (Json.obj
      [("module_calls", Json.obj
        [("a", Json.obj [("source", .str "sa"), ("module", .obj [])]),
         ("b", Json.obj [("source", .str "sb"), ("module", .obj [])])])])
      = .ok (some (Module.mk (some [("a", callA), ("b", callB)]))) := by
    rw [stepConfigurationField_hit, e4]
  have e6 : decodeConfiguration (Json.obj [("root_module", Json.obj
      [("module_calls", Json.obj
        [("a", Json.obj [("source", .str "sa"), ("module", .obj [])]),
         ("b", Json.obj [("source", .str "sb"), ("module", .obj [])])])])])
      = .ok ⟨Module.mk (some [("a", callA), ("b", callB)])⟩ := by
    rw [decodeConfiguration_obj, visitConfigurationFields_cons, e5]
    rfl
  have e7 : stepShowField none "configuration" (Json.obj [("root_module",
      Json.obj [("module_calls", Json.obj
        [("a", Json.obj [("source", .str "sa"), ("module", .obj [])]),
         ("b", Json.obj [("source", .str "sb"), ("module", .obj [])])])])])
      = .ok (some ⟨Module.mk (some [("a", callA), ("b", callB)])⟩) := by
    rw [stepShowField_hit, e6]
  show decodeShow (Json.obj [("configuration", Json.obj [("root_module",
      Json.obj [("module_calls", Json.obj
        [("a", Json.obj [("source", .str "sa"), ("module", .obj [])]),
         ("b", Json.obj [("source", .str "sb"), ("module", .obj [])])])])])])
      = _
  rw [decodeShow_obj, visitShowFields_cons, e7]
  rfl

/-- Evaluation: building under the swapped iteration order lists `b` before
`a`. -/
theorem build_swapped :
    Module.into_trees fsId [] [] (.mk (some [("b", callB), ("a", callA)]))
      = some [Tree.node ⟨"b", none, none, pushStr [] "sb"⟩ [],
              Tree.node ⟨"a", none, none, pushStr [] "sa"⟩ []] := by
  simp [Module.into_trees, intoTreesList, fsId, callA, callB]

/-- Claim C3, counterexample.  The claim asserts the built tree's root
children appear in the document's own call order.  `module_calls` is a
`std::collections::HashMap`, whose iteration order is unspecified: for the
document `jOrder` (calls `a` then `b`), the iteration order placing `b`
first is a legitimate permutation of the decoded map, and the built
children then read `b, a` — not the document order `a, b`. -/
theorem c3_counterexample :
    decodeShow jOrder = .ok ⟨⟨Module.mk (some [("a", callA), ("b", callB)])⟩⟩
    ∧ List.Perm [("b", callB), ("a", callA)] [("a", callA), ("b", callB)]
    ∧ Module.into_trees fsId [] [] (.mk (some [("b", callB), ("a", callA)]))
        = some [Tree.node ⟨"b", none, none, pushStr [] "sb"⟩ [],
                Tree.node ⟨"a", none, none, pushStr [] "sa"⟩ []]
    ∧ docRootCallNames jOrder = some ["a", "b"]
    ∧ ([Tree.node ⟨"b", none, none, pushStr [] "sb"⟩ [],
        Tree.node ⟨"a", none, none, pushStr [] "sa"⟩ []].map treeName
        = ["b", "a"])
    ∧ (["b", "a"] : List String) ≠ ["a", "b"] := by
  refine ⟨decode_jOrder, List.Perm.swap ("a", callA) ("b", callB) [],
    build_swapped, ?_, ?_, by decide⟩
  · simp [docRootCallNames, jsonField, jOrder]
  · simp [treeName, Tree.rootVal]

/-- Claim C3, amended: for a document whose root calls carry distinct names
`n1..nk`, the built root has exactly k children, one per call, and their
names are a permutation of `n1..nk` — in the `HashMap`'s iteration order,
which is not guaranteed to be (and in general is not) the document order. -/
theorem c3_theorem (fs : FS) (base parent : Path)
    (entries : List (String × Json))
    (rootEntries iter : List (String × ModuleCall))
    (ts : List (Tree TreeNode))
    (hdec : decodeCalls [] entries = .ok rootEntries)
    (hnd : (entries.map Prod.fst).Nodup)
    (hperm : iter.Perm rootEntries)
    (hbuild : Module.into_trees fs base parent (.mk (some iter)) = some ts) :
    ts.length = entries.length
    ∧ (ts.map treeName).Perm (entries.map Prod.fst) := by
  have hkeys : rootEntries.map Prod.fst = entries.map Prod.fst := by
    rw [decodeCalls_keys entries [] rootEntries hdec]
    simpa using foldl_keysInsert (entries.map Prod.fst) [] hnd (by simp)
  have hb : intoTreesList fs base parent iter = some ts := by
    simpa [Module.into_trees] using hbuild
  have hnames : ts.map treeName = iter.map Prod.fst :=
    intoTreesList_names fs base parent iter ts hb
  have hpermNames : (iter.map Prod.fst).Perm (rootEntries.map Prod.fst) :=
    hperm.map Prod.fst
  constructor
  · have l1 : ts.length = iter.length := by
      have := congrArg List.length hnames
      simpa using this
    have l2 : iter.length = rootEntries.length := hperm.length_eq
    have l3 : rootEntries.length = entries.length := by
      have := congrArg List.length hkeys
      simpa using this
    omega
  · rw [hnames, ← hkeys]
    exact hpermNames

/-- Claim C3, witness: the two-call document built under the swapped
iteration order still has exactly two children whose names are a
permutation of the document's. -/
theorem c3_witness :
    decodeCalls []
        [("a", Json.obj [("source", .str "sa"), ("module", .obj [])]),
         ("b", Json.obj [("source", .str "sb"), ("module", .obj [])])]
      = .ok [("a", callA), ("b", callB)]
    ∧ (([("a", Json.obj [("source", .str "sa"), ("module", .obj [])]),
         ("b", Json.obj [("source", .str "sb"), ("module", .obj [])])].map
          Prod.fst).Nodup)
    ∧ List.Perm [("b", callB), ("a", callA)] [("a", callA), ("b", callB)]
    ∧ Module.into_trees fsId [] [] (.mk (some [("b", callB), ("a", callA)]))
        = some [Tree.node ⟨"b", none, none, pushStr [] "sb"⟩ [],
                Tree.node ⟨"a", none, none, pushStr [] "sa"⟩ []]
    ∧ (([Tree.node ⟨"b", none, none, pushStr [] "sb"⟩ [],
         Tree.node ⟨"a", none, none, pushStr [] "sa"⟩ []]
          : List (Tree TreeNode)).length
        = [("a", Json.obj [("source", .str "sa"), ("module", .obj [])]),
           ("b", Json.obj [("source", .str "sb"), ("module", .obj [])])].length
      ∧ ([Tree.node ⟨"b", none, none, pushStr [] "sb"⟩ [],
          Tree.node ⟨"a", none, none, pushStr [] "sa"⟩ []].map treeName).Perm
          ([("a", Json.obj [("source", .str "sa"), ("module", .obj [])]),
            ("b", Json.obj [("source", .str "sb"), ("module", .obj [])])].map
            Prod.fst)) :=
  ⟨decode_jcalls,
   by decide,
   List.Perm.swap ("a", callA) ("b", callB) [],
   build_swapped,
   c3_theorem fsId [] []
     [("a", Json.obj [("source", .str "sa"), ("module", .obj [])]),
      ("b", Json.obj [("source", .str "sb"), ("module", .obj [])])]
     [("a", callA), ("b", callB)] [("b", callB), ("a", callA)]
     [Tree.node ⟨"b", none, none, pushStr [] "sb"⟩ [],
      Tree.node ⟨"a", none, none, pushStr [] "sa"⟩ []]
     decode_jcalls
     (by decide)
     (List.Perm.swap ("a", callA) ("b", callB) [])
     build_swapped⟩

/-! ## Well-formedness of decoded maps -/

/-- `keysInsert` preserves distinctness of the key list. -/
theorem keysInsert_nodup (k : String) (ks : List String) (h : ks.Nodup) :
    (keysInsert k ks).Nodup := by
  by_cases hmem : k ∈ ks
  · simpa [keysInsert, hmem] using h
  · simp only [keysInsert, if_neg hmem]
    rw [List.nodup_append]
    refine ⟨h, List.nodup_singleton k, ?_⟩
    intro a ha hb
    rw [List.mem_singleton] at hb
    subst hb
    exact hmem ha

/-- `assocInsert` preserves distinctness of the key list. -/
theorem assocInsert_nodup {α : Type} (k : String) (v : α)
    (l : List (String × α)) (h : (l.map Prod.fst).Nodup) :
    ((assocInsert k v l).map Prod.fst).Nodup := by
  rw [assocInsert_keys]
  exact keysInsert_nodup k (l.map Prod.fst) h

/-- Members of `assocInsert` are the inserted binding or old members. -/
theorem mem_assocInsert {α : Type} (k : String) (v : α) :
    ∀ (l : List (String × α)) (p : String × α),
      p ∈ assocInsert k v l → p = (k, v) ∨ p ∈ l := by
  intro l
  induction l with
  | nil =>
    intro p hp
    simp [assocInsert] at hp
    exact Or.inl hp
  | cons hd tl ih =>
    intro p hp
    obtain ⟨k2, v2⟩ := hd
    by_cases hk : k2 = k
    · simp only [assocInsert, if_pos hk] at hp
      rcases List.mem_cons.mp hp with h1 | h2
      · exact Or.inl h1
      · exact Or.inr (List.mem_cons_of_mem _ h2)
    · simp only [assocInsert, if_neg hk] at hp
      rcases List.mem_cons.mp hp with h1 | h2
      · exact Or.inr (by simp [h1])
      · rcases ih p h2 with h3 | h4
        · exact Or.inl h3
        · exact Or.inr (List.mem_cons_of_mem _ h4)

/-- Defining equation of `visitCallFields` on the empty list. -/
theorem visitCallFields_nil (slots : CallSlots) :
    visitCallFields slots [] = .ok slots := by
  simp only [visitCallFields]

mutual
/-- Any module produced by the deserializer is well-formed: every decoded
call map has pairwise-distinct keys, recursively. -/
theorem decodeModule_wf (j : Json) (m : Module) :
    decodeModule j = .ok m → WFModule m := by
  cases j with
  | null => intro h; simp [decodeModule] at h
  | bool b => intro h; simp [decodeModule] at h
  | num n => intro h; simp [decodeModule] at h
  | str s => intro h; simp [decodeModule] at h
  | arr xs => intro h; simp [decodeModule] at h
  | obj fields =>
    intro h
    rw [decodeModule_obj] at h
    cases hv : visitModuleFields none fields with
    | error e => rw [hv] at h; exact absurd h (by simp)
    | ok slot =>
      rw [hv] at h
      simp only [Except.ok.injEq] at h
      subst h
      cases slot with
      | none => exact WFModule.none
      | some inner =>
        cases inner with
        | none => exact WFModule.none
        | some calls =>
          have hs := visitModuleFields_wf fields none (some (some calls))
            (fun calls2 hc => by simp at hc) hv calls rfl
          exact WFModule.some hs.1 hs.2
termination_by sizeOf j

/-- The `Module` field visit preserves the call-map invariant. -/
theorem visitModuleFields_wf (l : List (String × Json))
    (slot out : Option (Option (List (String × ModuleCall))))
    (hslot : ∀ calls, slot = some (some calls) →
      (calls.map Prod.fst).Nodup ∧ ∀ p ∈ calls, WFModule p.2.module) :
    visitModuleFields slot l = .ok out →
    ∀ calls, out = some (some calls) →
      (calls.map Prod.fst).Nodup ∧ ∀ p ∈ calls, WFModule p.2.module := by
  cases l with
  | nil =>
    intro h
    rw [visitModuleFields_nil] at h
    simp only [Except.ok.injEq] at h
    subst h
    exact hslot
  | cons hd rest =>
    obtain ⟨k, v⟩ := hd
    intro h
    rw [visitModuleFields_cons] at h
    cases hstep : stepModuleField slot k v with
    | error e => rw [hstep] at h; exact absurd h (by simp)
    | ok slot2 =>
      rw [hstep] at h
      exact visitModuleFields_wf rest slot2 out
        (stepModuleField_wf slot k v slot2 hslot hstep) h
termination_by sizeOf l

/-- A single `Module` field step preserves the call-map invariant. -/
theorem stepModuleField_wf (slot : Option (Option (List (String × ModuleCall))))
    (k : String) (v : Json)
    (out : Option (Option (List (String × ModuleCall))))
    (hslot : ∀ calls, slot = some (some calls) →
      (calls.map Prod.fst).Nodup ∧ ∀ p ∈ calls, WFModule p.2.module) :
    stepModuleField slot k v = .ok out →
    ∀ calls, out = some (some calls) →
      (calls.map Prod.fst).Nodup ∧ ∀ p ∈ calls, WFModule p.2.module := by
  intro h
  rw [stepModuleField_eq] at h
  by_cases hk : k = "module_calls"
  · rw [if_pos hk] at h
    cases slot with
    | some s => simp [applyModuleCalls] at h
    | none =>
      cases hr : decodeOptCallMap v with
      | error e => rw [hr] at h; simp [applyModuleCalls] at h
      | ok c =>
        rw [hr] at h
        simp only [applyModuleCalls, Except.ok.injEq] at h
        subst h
        intro calls hc
        simp only [Option.some.injEq] at hc
        subst hc
        exact decodeOptCallMap_wf v (some calls) hr calls rfl
  · rw [if_neg hk] at h
    simp only [Except.ok.injEq] at h
    subst h
    exact hslot
termination_by sizeOf v + 1

/-- A decoded optional call map satisfies the invariant. -/
theorem decodeOptCallMap_wf (j : Json)
    (c : Option (List (String × ModuleCall))) :
    decodeOptCallMap j = .ok c →
    ∀ calls, c = some calls →
      (calls.map Prod.fst).Nodup ∧ ∀ p ∈ calls, WFModule p.2.module := by
  intro h calls hc
  subst hc
  cases j with
  | null => simp only [decodeOptCallMap] at h; exact absurd h (by simp)
  | bool b => simp [decodeOptCallMap] at h
  | num n => simp [decodeOptCallMap] at h
  | str s => simp [decodeOptCallMap] at h
  | arr xs => simp [decodeOptCallMap] at h
  | obj entries =>
    rw [decodeOptCallMap_obj] at h
    cases hd : decodeCalls [] entries with
    | error e => rw [hd] at h; simp [Except.map] at h
    | ok calls2 =>
      rw [hd] at h
      simp only [Except.map, Except.ok.injEq, Option.some.injEq] at h
      subst h
      exact decodeCalls_wf entries [] calls2 (by simp) (by simp) hd
termination_by sizeOf j

/-- The call-map fold preserves the invariant. -/
theorem decodeCalls_wf (l : List (String × Json))
    (acc out : List (String × ModuleCall))
    (hnd : (acc.map Prod.fst).Nodup)
    (hwf : ∀ p ∈ acc, WFModule p.2.module) :
    decodeCalls acc l = .ok out →
    (out.map Prod.fst).Nodup ∧ ∀ p ∈ out, WFModule p.2.module := by
  cases l with
  | nil =>
    intro h
    simp only [decodeCalls, Except.ok.injEq] at h
    subst h
    exact ⟨hnd, hwf⟩
  | cons hd rest =>
    obtain ⟨k, v⟩ := hd
    intro h
    simp only [decodeCalls] at h
    cases hdc : decodeModuleCall v with
    | error e => rw [hdc] at h; exact absurd h (by simp)
    | ok call =>
      rw [hdc] at h
      have hwfc : WFModule call.module := decodeModuleCall_wf v call hdc
      refine decodeCalls_wf rest (assocInsert k call acc) out
        (assocInsert_nodup k call acc hnd) ?_ h
      intro p hp
      rcases mem_assocInsert k call acc p hp with h1 | h2
      · rw [h1]; exact hwfc
      · exact hwf p h2
termination_by sizeOf l

/-- A decoded call's nested module is well-formed. -/
theorem decodeModuleCall_wf (j : Json) (c : ModuleCall) :
    decodeModuleCall j = .ok c → WFModule c.module := by
  cases j with
  | null => intro h; simp [decodeModuleCall] at h
  | bool b => intro h; simp [decodeModuleCall] at h
  | num n => intro h; simp [decodeModuleCall] at h
  | str s => intro h; simp [decodeModuleCall] at h
  | arr xs => intro h; simp [decodeModuleCall] at h
  | obj fields =>
    intro h
    simp only [decodeModuleCall] at h
    cases hv : visitCallFields ⟨none, none, none, none⟩ fields with
    | error e => rw [hv] at h; exact absurd h (by simp)
    | ok slots =>
      rw [hv] at h
      obtain ⟨sm, ss, sc, sf⟩ := slots
      cases sm with
      | none => simp at h
      | some m =>
        cases ss with
        | none => simp at h
        | some src =>
          simp only [Except.ok.injEq] at h
          subst h
          have hs := visitCallFields_wf fields ⟨none, none, none, none⟩
            ⟨some m, some src, sc, sf⟩ (fun m2 hm2 => by simp at hm2) hv
          exact hs m rfl
termination_by sizeOf j

/-- The `ModuleCall` field visit preserves well-formedness of the stored
module slot. -/
theorem visitCallFields_wf (l : List (String × Json))
    (slots out : CallSlots)
    (hm : ∀ m, slots.module = some m → WFModule m) :
    visitCallFields slots l = .ok out →
    ∀ m, out.module = some m → WFModule m := by
  cases l with
  | nil =>
    intro h
    rw [visitCallFields_nil] at h
    simp only [Except.ok.injEq] at h
    subst h
    exact hm
  | cons hd rest =>
    obtain ⟨k, v⟩ := hd
    intro h
    simp only [visitCallFields] at h
    cases hstep : stepCallField slots k v with
    | error e => rw [hstep] at h; exact absurd h (by simp)
    | ok slots2 =>
      rw [hstep] at h
      exact visitCallFields_wf rest slots2 out
        (stepCallField_wf slots k v slots2 hm hstep) h
termination_by sizeOf l

/-- A single `ModuleCall` field step preserves well-formedness of the stored
module slot. -/
theorem stepCallField_wf (slots : CallSlots) (k : String) (v : Json)
    (out : CallSlots)
    (hm : ∀ m, slots.module = some m → WFModule m) :
    stepCallField slots k v = .ok out →
    ∀ m, out.module = some m → WFModule m := by
  intro h
  simp only [stepCallField] at h
  by_cases h1 : k = "module"
  · rw [if_pos h1] at h
    obtain ⟨sm, ss, sc, sf⟩ := slots
    cases sm with
    | some m0 => simp [applyCallModule] at h
    | none =>
      cases hdm : decodeModule v with
      | error e => rw [hdm] at h; simp [applyCallModule] at h
      | ok m2 =>
        rw [hdm] at h
        simp only [applyCallModule, Except.ok.injEq] at h
        subst h
        intro m hm2
        simp only [Option.some.injEq] at hm2
        subst hm2
        exact decodeModule_wf v m2 hdm
  · rw [if_neg h1] at h
    by_cases h2 : k = "source"
    · rw [if_pos h2] at h
      intro m hm2
      rw [applyCallSource_module slots out v h] at hm2
      exact hm m hm2
    · rw [if_neg h2] at h
      by_cases h3 : k = "count_expression"
      · rw [if_pos h3] at h
        intro m hm2
        rw [(applyCallCount_slots slots out (decodeOptCount v) h).2] at hm2
        exact hm m hm2
      · rw [if_neg h3] at h
        by_cases h4 : k = "for_each_expression"
        · rw [if_pos h4] at h
          intro m hm2
          rw [(applyCallForEach_slots slots out (decodeOptForEach v) h).2] at hm2
          exact hm m hm2
        · rw [if_neg h4] at h
          simp only [Except.ok.injEq] at h
          subst h
          exact hm
termination_by sizeOf v + 1
end

mutual
/-- Building a well-formed module yields sibling groups with pairwise
distinct names, at every level. -/
theorem into_trees_nodup (fs : FS) (base parent : Path) (m : Module)
    (ts : List (Tree TreeNode)) :
    WFModule m →
    Module.into_trees fs base parent m = some ts →
    (ts.map treeName).Nodup ∧ ∀ t ∈ ts, NodupNames t := by
  cases m with
  | mk mc =>
    cases mc with
    | none =>
      intro _ h
      simp only [Module.into_trees, Option.some.injEq] at h
      subst h
      exact ⟨by simp, by simp⟩
    | some calls =>
      intro hwf h
      simp only [Module.into_trees] at h
      cases hwf with
      | some hnd hcalls =>
        exact intoTreesList_nodup fs base parent calls ts (by simpa using hnd)
          hcalls h
termination_by sizeOf m

/-- List version of `into_trees_nodup`. -/
theorem intoTreesList_nodup (fs : FS) (base parent : Path)
    (l : List (String × ModuleCall)) (ts : List (Tree TreeNode)) :
    (l.map Prod.fst).Nodup →
    (∀ p ∈ l, WFModule p.2.module) →
    intoTreesList fs base parent l = some ts →
    (ts.map treeName).Nodup ∧ ∀ t ∈ ts, NodupNames t := by
  cases l with
  | nil =>
    intro _ _ h
    simp only [intoTreesList, Option.some.injEq] at h
    subst h
    exact ⟨by simp, by simp⟩
  | cons hd rest =>
    obtain ⟨name, call⟩ := hd
    cases call with
    | mk m2 src cnt fe =>
      intro hnd hwf h
      simp only [intoTreesList] at h
      cases hc : fs.canonicalize (pushStr parent src) with
      | none => rw [hc] at h; exact absurd h (by simp)
      | some source =>
        rw [hc] at h
        cases hm : Module.into_trees fs base (pushStr parent src) m2 with
        | none => rw [hm] at h; exact absurd h (by simp)
        | some children =>
          rw [hm] at h
          cases hr : intoTreesList fs base parent rest with
          | none => rw [hr] at h; exact absurd h (by simp)
          | some ts2 =>
            rw [hr] at h
            simp only [Option.some.injEq] at h
            subst h
            have hnd2 : (name :: rest.map Prod.fst).Nodup := by
              simpa using hnd
            have hwf2 : WFModule m2 := by
              have := hwf (name, .mk m2 src cnt fe) (by simp)
              simpa [ModuleCall.module] using this
            have hchild := into_trees_nodup fs base (pushStr parent src) m2
              children hwf2 hm
            have hrest := intoTreesList_nodup fs base parent rest ts2
              (List.nodup_cons.mp hnd2).2
              (fun p hp => hwf p (List.mem_cons_of_mem _ hp)) hr
            have hnames := intoTreesList_names fs base parent rest ts2 hr
            constructor
            · rw [List.map_cons]
              rw [show treeName (Tree.node ⟨name, cnt, fe, source⟩ children)
                  = name from rfl]
              rw [List.nodup_cons]
              constructor
              · rw [hnames]
                exact (List.nodup_cons.mp hnd2).1
              · exact hrest.1
            · intro t ht
              rcases List.mem_cons.mp ht with h1 | h2
              · rw [h1]
                exact NodupNames.node hchild.1 hchild.2
              · exact hrest.2 t h2
termination_by sizeOf l
end

/-- Claim C10, confirmed: deserialization always produces modules whose
call maps have pairwise-distinct keys (a repeated call name within one
module collapses to one entry of the `HashMap`), and building a tree from
such a module yields no two siblings sharing a name, at any level. -/
theorem c10_theorem :
    (∀ (j : Json) (m : Module), decodeModule j = .ok m → WFModule m)
    ∧ (∀ (fs : FS) (base parent : Path) (m : Module)
        (ts : List (Tree TreeNode)),
        WFModule m → Module.into_trees fs base parent m = some ts →
        (ts.map treeName).Nodup ∧ ∀ t ∈ ts, NodupNames t) :=
  ⟨fun j m h => decodeModule_wf j m h,
   fun fs base parent m ts hwf h =>
     into_trees_nodup fs base parent m ts hwf h⟩

/-- Claim C10, witness: a concrete decode and build with no duplicate
sibling names. -/
theorem c10_witness :
    decodeModule (Json.obj []) = .ok (Module.mk none)
    ∧ WFModule (Module.mk none)
    ∧ Module.into_trees fsId [] [] (Module.mk none) = some []
    ∧ ((([] : List (Tree TreeNode)).map treeName).Nodup
        ∧ ∀ t ∈ ([] : List (Tree TreeNode)), NodupNames t) := by
  have hd : decodeModule (Json.obj []) = .ok (Module.mk none) := by
    rw [decodeModule_obj, visitModuleFields_nil]
    rfl
  have hb : Module.into_trees fsId [] [] (Module.mk none) = some [] := by
    simp only [Module.into_trees]
  exact ⟨hd, c10_theorem.1 (Json.obj []) (Module.mk none) hd, hb,
    c10_theorem.2 fsId [] [] (Module.mk none) []
      (c10_theorem.1 (Json.obj []) (Module.mk none) hd) hb⟩

/-- Claim C7, witness: an unknown `resources` field is ignored, a call
object with no `source` key is rejected, and wrongly-typed `source`,
`module` and `count_expression` values are rejected as type mismatches. -/
theorem c7_witness :
    (("resources" : String) ≠ "module"
      ∧ ("resources" : String) ≠ "source"
      ∧ ("resources" : String) ≠ "count_expression"
      ∧ ("resources" : String) ≠ "for_each_expression"
      ∧ decodeModuleCall (.obj [("resources", .null),
            ("source", .str "./x"), ("module", .obj [])])
          = decodeModuleCall (.obj [("source", .str "./x"), ("module", .obj [])]))
    ∧ (("source" : String) ∉ ([("module", Json.obj [])].map Prod.fst)
      ∧ ∃ e, decodeModuleCall (.obj [("module", .obj [])]) = .error e)
    ∧ ((∀ s, Json.num 5 ≠ Json.str s)
      ∧ decodeModuleCall (.obj [("source", .num 5), ("module", .obj [])])
          = .error .typeMismatch)
    ∧ ((∀ f, Json.str "x" ≠ Json.obj f)
      ∧ decodeModuleCall (.obj [("module", .str "x"), ("source", .str "./x")])
          = .error .typeMismatch)
    ∧ (Json.str "2" ≠ Json.null
      ∧ (∀ f, Json.str "2" ≠ Json.obj f)
      ∧ decodeModuleCall (.obj [("count_expression", .str "2"),
            ("source", .str "./x"), ("module", .obj [])])
          = .error .typeMismatch)
    ∧ (Json.num 3 ≠ Json.null
      ∧ (∀ f, Json.num 3 ≠ Json.obj f)
      ∧ decodeModuleCall (.obj [("for_each_expression", .num 3),
            ("source", .str "./x"), ("module", .obj [])])
          = .error .typeMismatch) :=
  ⟨⟨by decide, by decide, by decide, by decide,
    c7_theorem.1 "resources" .null []
      [("source", .str "./x"), ("module", .obj [])]
      (by decide) (by decide) (by decide) (by decide)⟩,
   ⟨by decide, c7_theorem.2.1 [("module", .obj [])] (by decide)⟩,
   ⟨fun s h => Json.noConfusion h,
    c7_theorem.2.2.2.1 (.num 5) [("module", .obj [])]
      (fun s h => Json.noConfusion h)⟩,
   ⟨fun f h => Json.noConfusion h,
    c7_theorem.2.2.2.2.1 (.str "x") [("source", .str "./x")]
      (fun f h => Json.noConfusion h)⟩,
   ⟨fun h => Json.noConfusion h, fun f h => Json.noConfusion h,
    c7_theorem.2.2.2.2.2.1 (.str "2")
      [("source", .str "./x"), ("module", .obj [])]
      (fun h => Json.noConfusion h) (fun f h => Json.noConfusion h)⟩,
   ⟨fun h => Json.noConfusion h, fun f h => Json.noConfusion h,
    c7_theorem.2.2.2.2.2.2 (.num 3)
      [("source", .str "./x"), ("module", .obj [])]
      (fun h => Json.noConfusion h) (fun f h => Json.noConfusion h)⟩⟩

end Treaform
